import Mathlib

/-!
Shallow embedding of `src/ts-src/index.ts` (BIP32 hierarchical-deterministic
key derivation).  Buffers are modelled as `List Nat` (one entry per byte),
machine integers as `Nat` with explicit bounds, and thrown `TypeError`s as
`Except String`.  The elliptic-curve primitives, HMAC-SHA512, HASH160 and the
Base58Check codec are external collaborators of the repository (they come from
`tiny-secp256k1`, `./crypto` and `bs58check`); they are modelled as an opaque
capability record `Env`, with the algebraic facts the theorems need stated as
explicit hypotheses.
-/

deriving instance DecidableEq for Except

/-- Byte buffers: a list of byte values. -/
abbrev Bytes := List Nat

/-- The `Network` record (`wif`, `bip32.public`, `bip32.private`). -/
structure Network where
  wif : Nat
  bip32public : Nat
  bip32private : Nat
deriving DecidableEq, Repr

/-- Schema `NETWORK_TYPE` from the source: `wif` is a UInt8 and the two bip32
version words are UInt32s (`typeforce.compile` schema). -/
def Network.valid (net : Network) : Prop :=
  net.wif < 256 ∧ net.bip32public < 4294967296 ∧ net.bip32private < 4294967296

instance (net : Network) : Decidable net.valid := by
  unfold Network.valid; infer_instance

/-- The `BITCOIN` network constant. -/
def BITCOIN : Network := ⟨0x80, 0x0488b21e, 0x0488ade4⟩

/-- The in-memory node: fields `__d`, `__Q`, `chainCode`, `network`, `depth`,
`index`, `parentFingerprint` of class `BIP32`. -/
structure BIP32 where
  __d : Option Bytes
  __Q : Option Bytes
  chainCode : Bytes
  network : Network
  depth : Nat
  index : Nat
  parentFingerprint : Nat
deriving DecidableEq, Repr

/-- The external capabilities consumed by the source: `tiny-secp256k1`
(`isPrivate`, `pointFromScalar` (always called with `compressed = true`),
`privateAdd`, `pointAddScalar`, `isPoint`), `./crypto` (`hmacSHA512`,
`hash160`) and `bs58check` (`encode`, `decode`). -/
structure Env where
  isPrivate : Bytes → Bool
  pointFromScalar : Bytes → Bytes
  privateAdd : Bytes → Bytes → Option Bytes
  pointAddScalar : Bytes → Bytes → Option Bytes
  isPoint : Bytes → Bool
  hmacSHA512 : Bytes → Bytes → Bytes
  hash160 : Bytes → Bytes
  bs58encode : Bytes → String
  bs58decode : String → Except String Bytes

/-- Constant `HIGHEST_BIT = 0x80000000`. -/
def HIGHEST_BIT : Nat := 2147483648

/-- Constant `UINT31_MAX = 2^31 - 1`. -/
def UINT31_MAX : Nat := 2147483647

/-- Model of `buffer.writeUInt32BE`: the four big-endian bytes of a 32-bit value. -/
def ser32 (x : Nat) : Bytes :=
  [x / 16777216 % 256, x / 65536 % 256, x / 256 % 256, x % 256]

/-- Model of `buffer.readUInt32BE(off)`: recombine four bytes big-endian. -/
def readUInt32BE (b : Bytes) (off : Nat) : Nat :=
  b.getD off 0 * 16777216 + b.getD (off + 1) 0 * 65536 +
    b.getD (off + 2) 0 * 256 + b.getD (off + 3) 0

/-- Getter `publicKey`: the cached `__Q` if present, else
`ecc.pointFromScalar(this.__d, true)`. -/
def publicKey (E : Env) (n : BIP32) : Bytes :=
  match n.__Q with
  | some Q => Q
  | none => E.pointFromScalar (n.__d.getD [])

/-- Method `isNeutered()`: the private scalar is absent. -/
def isNeutered (n : BIP32) : Bool := n.__d.isNone

/-- Getter `identifier`: `hash160(publicKey)`. -/
def identifier (E : Env) (n : BIP32) : Bytes := E.hash160 (publicKey E n)

/-- Getter `fingerprint`: `identifier.slice(0, 4)`. -/
def fingerprint (E : Env) (n : BIP32) : Bytes := (identifier E n).take 4

/-- Constructor `fromPrivateKey`: 32-byte buffer checks, `ecc.isPrivate` range check, and
the constructor's `NETWORK_TYPE` check; tree-position fields start at zero. -/
def fromPrivateKey (E : Env) (privateKey chainCode : Bytes) (network : Network) :
    Except String BIP32 :=
  if privateKey.length = 32 ∧ chainCode.length = 32 then
    if E.isPrivate privateKey then
      if network.valid then
        .ok ⟨some privateKey, none, chainCode, network, 0, 0, 0⟩
      else .error "Expected Network"
    else .error "Private key not in range [1, n)"
  else .error "Expected BufferN(32)"

/-- Constructor `fromPublicKey`: 33-byte buffer check, `ecc.isPoint` curve check, and the
constructor's `NETWORK_TYPE` check; tree-position fields start at zero. -/
def fromPublicKey (E : Env) (publicKey chainCode : Bytes) (network : Network) :
    Except String BIP32 :=
  if publicKey.length = 33 ∧ chainCode.length = 32 then
    if E.isPoint publicKey then
      if network.valid then
        .ok ⟨none, some publicKey, chainCode, network, 0, 0, 0⟩
      else .error "Expected Network"
    else .error "Point is not on the curve"
  else .error "Expected BufferN"

/-- Method `neutered()`: a public-only copy sharing `chainCode` and tree position. -/
def neutered (E : Env) (n : BIP32) : Except String BIP32 :=
  match fromPublicKey E (publicKey E n) n.chainCode n.network with
  | .error e => .error e
  | .ok m => .ok { m with depth := n.depth, index := n.index,
                          parentFingerprint := n.parentFingerprint }

/-- The record `neutered()` produces when it succeeds. -/
def neuterRecord (E : Env) (n : BIP32) : BIP32 :=
  ⟨none, some (publicKey E n), n.chainCode, n.network,
    n.depth, n.index, n.parentFingerprint⟩

/-- The assignments `hd.depth / hd.index / hd.parentFingerprint` performed at
the end of `derive` on the freshly constructed child. -/
def setMeta (E : Env) (parent : BIP32) (index : Nat) (hd : BIP32) : BIP32 :=
  { hd with depth := parent.depth + 1, index := index,
            parentFingerprint := readUInt32BE (fingerprint E parent) 0 }

/-- Method `derive(index)`, with the recursion on `index + 1` (the
"proceed with the next value for i" retries) made structural on the fuel
`2^32 - index`: fuel `0` is exactly the states where `typeforce.UInt32`
rejects the index, so `deriveFuel E (2^32 - index) node index` is the
source's `derive`.  The body mirrors the source line for line: the hardened
branch requires a private node and feeds `0x00 ‖ d ‖ ser32(index)` to
HMAC-SHA512, the normal branch feeds `publicKey ‖ ser32(index)`; an invalid
`IL`, a zero child scalar or an infinity child point retries with
`index + 1`. -/
def deriveFuel (E : Env) : Nat → BIP32 → Nat → Except String BIP32
  | 0, _, _ => .error "Expected UInt32"
  | fuel + 1, node, index =>
    if HIGHEST_BIT ≤ index ∧ isNeutered node = true then
      .error "Missing private key for hardened child key"
    else
      let data :=
        if HIGHEST_BIT ≤ index then 0 :: (node.__d.getD [] ++ ser32 index)
        else publicKey E node ++ ser32 index
      let I := E.hmacSHA512 node.chainCode data
      let IL := I.take 32
      let IR := I.drop 32
      if E.isPrivate IL = false then deriveFuel E fuel node (index + 1)
      else if isNeutered node = false then
        match E.privateAdd (node.__d.getD []) IL with
        | none => deriveFuel E fuel node (index + 1)
        | some ki =>
          match fromPrivateKey E ki IR node.network with
          | .error e => .error e
          | .ok hd => .ok (setMeta E node index hd)
      else
        match E.pointAddScalar (publicKey E node) IL with
        | none => deriveFuel E fuel node (index + 1)
        | some Ki =>
          match fromPublicKey E Ki IR node.network with
          | .error e => .error e
          | .ok hd => .ok (setMeta E node index hd)

/-- Method `derive(index)`: see `deriveFuel`. -/
def derive (E : Env) (node : BIP32) (index : Nat) : Except String BIP32 :=
  deriveFuel E (4294967296 - index) node index

/-- Method `deriveHardened(index)`: `typeforce(UInt31, index)` then
`derive(index + HIGHEST_BIT)`. -/
def deriveHardened (E : Env) (node : BIP32) (index : Nat) : Except String BIP32 :=
  if UINT31_MAX < index then .error "Expected UInt31"
  else derive E node (index + HIGHEST_BIT)

/-- Model of `String.prototype.split` at the slash separator. -/
def splitSlash : List Char → List (List Char)
  | [] => [[]]
  | c :: cs =>
    let r := splitSlash cs
    if c = '/' then [] :: r
    else
      match r with
      | [] => [[c]]
      | h :: t => (c :: h) :: t

/-- One or more ASCII decimal digits (`\d+`). -/
def isDigitRun (cs : List Char) : Bool :=
  decide (cs ≠ []) && cs.all fun c => decide ('0' ≤ c) && decide (c ≤ '9')

/-- A path segment `\d+'?`. -/
def isPathSeg (cs : List Char) : Bool :=
  match cs.getLast? with
  | some c => if c = Char.ofNat 39 then isDigitRun cs.dropLast else isDigitRun cs
  | none => false

/-- The `BIP32Path` validator: `value.match(/^(m\/)?(\d+'?\/)*\d+'?$/)`.
Because `m` is not a digit, the regex deterministically consumes a leading
`m/` when present and otherwise requires the whole string to be
slash-separated `\d+'?` segments (empty segments are impossible). -/
def BIP32PathChars (cs : List Char) : Bool :=
  match cs with
  | 'm' :: '/' :: rest => (splitSlash rest).all isPathSeg
  | _ => (splitSlash cs).all isPathSeg

/-- Validator `BIP32Path` on a string value. -/
def BIP32Path (value : String) : Bool := BIP32PathChars value.data

/-- Model of `parseInt(s, 10)` on an all-digit string. -/
def parseDec (cs : List Char) : Nat :=
  cs.foldl (fun a c => a * 10 + (c.toNat - 48)) 0

/-- The `reduce` over path segments in `derivePath`: hardened when the
segment ends with an apostrophe. -/
def applySegs (E : Env) : List (List Char) → BIP32 → Except String BIP32
  | [], hd => .ok hd
  | seg :: rest, hd =>
    if seg.getLast? = some (Char.ofNat 39) then
      match deriveHardened E hd (parseDec seg.dropLast) with
      | .error e => .error e
      | .ok next => applySegs E rest next
    else
      match derive E hd (parseDec seg) with
      | .error e => .error e
      | .ok next => applySegs E rest next

/-- Method `derivePath(path)`: validate against `BIP32Path`, split at slashes, treat a
leading `m` as an anchor that requires `parentFingerprint === 0`, then fold
`derive`/`deriveHardened` over the segments. -/
def derivePath (E : Env) (node : BIP32) (path : String) : Except String BIP32 :=
  let cs := path.data
  if BIP32PathChars cs = false then .error "Expected BIP32Path"
  else
    match splitSlash cs with
    | seg :: rest =>
      if seg = ['m'] then
        if node.parentFingerprint ≠ 0 then .error "Expected master, got child"
        else applySegs E rest node
      else applySegs E (seg :: rest) node
    | [] => applySegs E [] node

/-- The 78-byte extended-key payload written by `toBase58`:
`version ‖ depth ‖ parentFingerprint ‖ index ‖ chainCode ‖ (0x00‖d | Q)`. -/
def serializePayload (E : Env) (n : BIP32) : Bytes :=
  let version := if isNeutered n then n.network.bip32public
                 else n.network.bip32private
  ser32 version ++ n.depth ::
    (ser32 n.parentFingerprint ++ ser32 n.index ++ n.chainCode ++
      (match n.__d with
       | some d => 0 :: d
       | none => publicKey E n))

/-- Method `toBase58()`: the buffer writes bounds-check their values
(`writeUInt32BE` demands a UInt32, `writeUInt8` a UInt8, in write order),
then the payload is Base58Check-encoded. -/
def toBase58 (E : Env) (n : BIP32) : Except String String :=
  let version := if isNeutered n then n.network.bip32public
                 else n.network.bip32private
  if 4294967296 ≤ version then .error "RangeError: version out of range"
  else if 256 ≤ n.depth then .error "RangeError: depth out of range"
  else if 4294967296 ≤ n.parentFingerprint then
    .error "RangeError: parentFingerprint out of range"
  else if 4294967296 ≤ n.index then .error "RangeError: index out of range"
  else .ok (E.bs58encode (serializePayload E n))

/-- Body of `fromBase58` after the Base58Check decode: length check, version check,
root-invariant checks, then reconstruction through `fromPrivateKey` or
`fromPublicKey` followed by the tree-position assignments. -/
def fromBase58Buf (E : Env) (buffer : Bytes) (network : Network) :
    Except String BIP32 :=
  if buffer.length ≠ 78 then .error "Invalid buffer length"
  else
    let version := readUInt32BE buffer 0
    if version ≠ network.bip32private ∧ version ≠ network.bip32public then
      .error "Invalid network version"
    else
      let depth := buffer.getD 4 0
      let parentFingerprint := readUInt32BE buffer 5
      if depth = 0 ∧ parentFingerprint ≠ 0 then .error "Invalid parent fingerprint"
      else
        let index := readUInt32BE buffer 9
        if depth = 0 ∧ index ≠ 0 then .error "Invalid index"
        else
          let chainCode := (buffer.drop 13).take 32
          if version = network.bip32private then
            if buffer.getD 45 0 ≠ 0 then .error "Invalid private key"
            else
              match fromPrivateKey E ((buffer.drop 46).take 32) chainCode network with
              | .error e => .error e
              | .ok hd => .ok { hd with depth := depth, index := index,
                                        parentFingerprint := parentFingerprint }
          else
            match fromPublicKey E ((buffer.drop 45).take 33) chainCode network with
            | .error e => .error e
            | .ok hd => .ok { hd with depth := depth, index := index,
                                      parentFingerprint := parentFingerprint }

/-- Function `fromBase58(string, network)`. -/
def fromBase58 (E : Env) (s : String) (network : Network) : Except String BIP32 :=
  match E.bs58decode s with
  | .error e => .error e
  | .ok buffer => fromBase58Buf E buffer network

/-- The ASCII bytes of `'Bitcoin seed'`. -/
def bitcoinSeedKey : Bytes := [66, 105, 116, 99, 111, 105, 110, 32, 115, 101, 101, 100]

/-- Function `fromSeed(seed, network)`: length bounds, HMAC-SHA512 keyed with
`'Bitcoin seed'`, then `fromPrivateKey(IL, IR)`. -/
def fromSeed (E : Env) (seed : Bytes) (network : Network) : Except String BIP32 :=
  if seed.length < 16 then .error "Seed should be at least 128 bits"
  else if 64 < seed.length then .error "Seed should be at most 512 bits"
  else
    let I := E.hmacSHA512 bitcoinSeedKey seed
    fromPrivateKey E (I.take 32) (I.drop 32) network

/-! ### A concrete capability instance for witnesses and counterexamples

Scalars are 32-byte big-endian encodings read modulo the toy curve order 5;
the generator is `1`, so a point is a 33-byte `0x02`-prefixed encoding of the
scalar it corresponds to.  The keyed hash returns an all-zero block (whose
left half is an invalid scalar, `0 mod 5`) exactly for a normal-derivation
message with index `UINT31_MAX` and for 16-byte seeds, and otherwise returns
valid halves `1 ‖ 3`. -/

/-- Big-endian value of a byte string. -/
def val (b : Bytes) : Nat := b.foldl (fun a x => a * 256 + x) 0

/-- 32-byte big-endian encoding of a value below 256. -/
def enc32 (r : Nat) : Bytes := List.replicate 31 0 ++ [r]

/-- 33-byte compressed-point-style encoding. -/
def enc33 (r : Nat) : Bytes := 2 :: enc32 r

/-- The toy capability instance. -/
def E5 : Env where
  isPrivate s := decide (s.length = 32) && decide (val s % 5 ≠ 0)
  pointFromScalar s := enc33 (val s % 5)
  privateAdd a b :=
    if (val a + val b) % 5 = 0 then none else some (enc32 ((val a + val b) % 5))
  pointAddScalar P s :=
    if (val P.tail % 5 + val s) % 5 = 0 then none
    else some (enc33 ((val P.tail % 5 + val s) % 5))
  isPoint P := decide (P.length = 33) && decide (P.headD 0 = 2) &&
    decide (val P.tail % 5 ≠ 0)
  hmacSHA512 _key data :=
    if data.drop 33 = ser32 UINT31_MAX ∨ data.length = 16 then List.replicate 64 0
    else enc32 1 ++ enc32 3
  hash160 _ := List.replicate 20 0
  bs58encode _ := "b58"
  bs58decode _ := .error "checksum mismatch"

/-- A 32-byte chain code used by the concrete nodes. -/
def ccA : Bytes := List.replicate 32 7

/-- A concrete private root node (scalar 1, cached point). -/
def node0 : BIP32 := ⟨some (enc32 1), some (enc33 1), ccA, BITCOIN, 0, 0, 0⟩

/-- Its expected child under `derive E5 node0 0`. -/
def child0 : BIP32 := ⟨some (enc32 2), none, enc32 3, BITCOIN, 1, 0, 0⟩


/-- The neutered copy of `node0`. -/
def node0pub : BIP32 := ⟨none, some (enc33 1), ccA, BITCOIN, 0, 0, 0⟩

/-- A private node whose scalar is 4 (so adding `IL = 1` hits zero mod 5). -/
def node4 : BIP32 := ⟨some (enc32 4), some (enc33 4), ccA, BITCOIN, 0, 0, 0⟩


/-! ### Contract laws of the curve capability (§6 of the spec) -/

/-- The algebraic contract of the curve backend that the derivation theorems
rely on: scalar/point encodings have fixed widths, `pointFromScalar` of a
valid scalar is a valid point, `privateAdd` produces valid 32-byte scalars,
and `pointFromScalar` is a homomorphism interchanging `privateAdd` with
`pointAddScalar` (including the `null`-on-zero / `null`-on-infinity cases). -/
structure EccLaws (E : Env) : Prop where
  pfs_len : ∀ d, E.isPrivate d = true → (E.pointFromScalar d).length = 33
  pfs_point : ∀ d, E.isPrivate d = true → E.isPoint (E.pointFromScalar d) = true
  padd_len : ∀ a b k, E.privateAdd a b = some k → k.length = 32
  padd_priv : ∀ a b k, E.privateAdd a b = some k → E.isPrivate k = true
  hom : ∀ d s, E.isPrivate d = true → E.isPrivate s = true →
    Option.map E.pointFromScalar (E.privateAdd d s) =
      E.pointAddScalar (E.pointFromScalar d) s

lemma val_append_singleton (l : Bytes) (r : Nat) :
    val (l ++ [r]) = val l * 256 + r := by
  simp [val, List.foldl_append]

lemma val_replicate_zero (n : Nat) : val (List.replicate n 0) = 0 := by
  induction n with
  | zero => rfl
  | succ n ih => simpa [val, List.replicate_succ] using ih

lemma val_enc32 (r : Nat) : val (enc32 r) = r := by
  unfold enc32
  rw [val_append_singleton, val_replicate_zero]
  omega

lemma enc32_length (r : Nat) : (enc32 r).length = 32 := by simp [enc32]

lemma enc33_length (r : Nat) : (enc33 r).length = 33 := by simp [enc33, enc32]

lemma e5_laws : EccLaws E5 := by
  constructor
  · intro d _
    exact enc33_length _
  · intro d hd
    simp only [E5, decide_eq_true_eq, Bool.and_eq_true] at hd ⊢
    refine ⟨⟨enc33_length _, rfl⟩, ?_⟩
    show val (enc32 (val d % 5)) % 5 ≠ 0
    rw [val_enc32]
    omega
  · intro a b k h
    simp only [E5] at h
    split at h
    · exact absurd h (by simp)
    · cases h
      exact enc32_length _
  · intro a b k h
    simp only [E5] at h ⊢
    split at h
    · exact absurd h (by simp)
    · cases h
      rename_i hne
      simp only [decide_eq_true_eq, Bool.and_eq_true]
      refine ⟨enc32_length _, ?_⟩
      rw [val_enc32]
      omega
  · intro d s hd hs
    simp only [E5]
    show Option.map _ (if (val d + val s) % 5 = 0 then none else _) = _
    have htail : (enc33 (val d % 5)).tail = enc32 (val d % 5) := rfl
    rw [htail, val_enc32]
    have hmod : (val d % 5 % 5 + val s) % 5 = (val d + val s) % 5 := by omega
    rw [hmod]
    split
    · rfl
    · simp only [Option.map_some']
      show some (enc33 (val (enc32 ((val d + val s) % 5)) % 5)) = _
      rw [val_enc32]
      have : (val d + val s) % 5 % 5 = (val d + val s) % 5 := by omega
      rw [this]

/-! ### Inversion lemmas for the constructors -/

lemma fromPrivateKey_ok {E : Env} {k cc : Bytes} {net : Network} {m : BIP32}
    (h : fromPrivateKey E k cc net = .ok m) :
    m = ⟨some k, none, cc, net, 0, 0, 0⟩ ∧ k.length = 32 ∧ cc.length = 32 ∧
      E.isPrivate k = true ∧ net.valid := by
  unfold fromPrivateKey at h
  split at h
  · split at h
    · split at h
      · cases h
        rename_i hlen hpriv hnet
        exact ⟨rfl, hlen.1, hlen.2, hpriv, hnet⟩
      · cases h
    · cases h
  · cases h

lemma fromPublicKey_ok {E : Env} {Q cc : Bytes} {net : Network} {m : BIP32}
    (h : fromPublicKey E Q cc net = .ok m) :
    m = ⟨none, some Q, cc, net, 0, 0, 0⟩ ∧ Q.length = 33 ∧ cc.length = 32 ∧
      E.isPoint Q = true ∧ net.valid := by
  unfold fromPublicKey at h
  split at h
  · split at h
    · split at h
      · cases h
        rename_i hlen hpoint hnet
        exact ⟨rfl, hlen.1, hlen.2, hpoint, hnet⟩
      · cases h
    · cases h
  · cases h

lemma fromPrivateKey_eq_ok {E : Env} {k cc : Bytes} {net : Network}
    (hk : k.length = 32) (hcc : cc.length = 32) (hpriv : E.isPrivate k = true)
    (hnet : net.valid) :
    fromPrivateKey E k cc net = .ok ⟨some k, none, cc, net, 0, 0, 0⟩ := by
  simp [fromPrivateKey, hk, hcc, hpriv, hnet]

lemma fromPublicKey_eq_ok {E : Env} {Q cc : Bytes} {net : Network}
    (hQ : Q.length = 33) (hcc : cc.length = 32) (hpoint : E.isPoint Q = true)
    (hnet : net.valid) :
    fromPublicKey E Q cc net = .ok ⟨none, some Q, cc, net, 0, 0, 0⟩ := by
  simp [fromPublicKey, hQ, hcc, hpoint, hnet]

/-! ### Structural lemmas about the derivation loop -/

lemma deriveFuel_index_bounds {E : Env} :
    ∀ {f : Nat} {n : BIP32} {i : Nat} {c : BIP32},
      deriveFuel E f n i = .ok c → i ≤ c.index ∧ c.index < i + f := by
  intro f
  induction f with
  | zero => intro n i c h; simp [deriveFuel] at h
  | succ f ih =>
    intro n i c h
    simp only [deriveFuel] at h
    split at h
    · exact absurd h (by simp)
    · split at h <;>
        [skip; skip] <;>
      · split at h
        · have := ih h
          omega
        · split at h
          · split at h
            · have := ih h
              omega
            · split at h
              · exact absurd h (by simp)
              · cases h
                simp only [setMeta]
                omega
          · split at h
            · have := ih h
              omega
            · split at h
              · exact absurd h (by simp)
              · cases h
                simp only [setMeta]
                omega

lemma deriveFuel_meta {E : Env} :
    ∀ {f : Nat} {n : BIP32} {i : Nat} {c : BIP32},
      deriveFuel E f n i = .ok c →
      c.depth = n.depth + 1 ∧
      c.parentFingerprint = readUInt32BE (fingerprint E n) 0 ∧
      c.network = n.network ∧ c.network.valid ∧ c.chainCode.length = 32 := by
  intro f
  induction f with
  | zero => intro n i c h; simp [deriveFuel] at h
  | succ f ih =>
    intro n i c h
    simp only [deriveFuel] at h
    split at h
    · exact absurd h (by simp)
    · split at h <;>
        [skip; skip] <;>
      · split at h
        · exact ih h
        · split at h
          · split at h
            · exact ih h
            · split at h
              · exact absurd h (by simp)
              · cases h
                rename_i hfk
                obtain ⟨rfl, -, hcc, -, hnet⟩ := fromPrivateKey_ok hfk
                simp [setMeta, hcc, hnet]
          · split at h
            · exact ih h
            · split at h
              · exact absurd h (by simp)
              · cases h
                rename_i hfk
                obtain ⟨rfl, -, hcc, -, hnet⟩ := fromPublicKey_ok hfk
                simp [setMeta, hcc, hnet]

lemma deriveFuel_mono {E : Env} :
    ∀ {f g : Nat}, f ≤ g → ∀ {n : BIP32} {i : Nat} {c : BIP32},
      deriveFuel E f n i = .ok c → deriveFuel E g n i = .ok c := by
  intro f
  induction f with
  | zero => intro g _ n i c h; simp [deriveFuel] at h
  | succ f ih =>
    intro g hg n i c h
    obtain ⟨g', rfl⟩ : ∃ g', g = g' + 1 := ⟨g - 1, by omega⟩
    have hg' : f ≤ g' := by omega
    simp only [deriveFuel] at h ⊢
    split at h
    · exact absurd h (by simp)
    · rename_i hguard
      rw [if_neg hguard]
      split at h <;> rename_i hhard <;>
        [rw [if_pos hhard]; rw [if_neg hhard]] <;>
      · split at h
        · rename_i hpriv
          rw [if_pos hpriv]
          exact ih hg' h
        · rename_i hpriv
          rw [if_neg hpriv]
          split at h
          · rename_i hneut
            rw [if_pos hneut]
            split at h
            · exact ih hg' h
            · exact h
          · rename_i hneut
            rw [if_neg hneut]
            split at h
            · exact ih hg' h
            · exact h

lemma deriveFuel_effective {E : Env} :
    ∀ {f : Nat} {n : BIP32} {i : Nat} {c : BIP32},
      i + f ≤ 4294967296 → deriveFuel E f n i = .ok c →
      derive E n c.index = .ok c := by
  intro f
  induction f with
  | zero => intro n i c _ h; simp [deriveFuel] at h
  | succ f ih =>
    intro n i c hle h
    have h0 := h
    simp only [deriveFuel] at h
    split at h
    · exact absurd h (by simp)
    · split at h <;>
        [skip; skip] <;>
      · split at h
        · exact ih (by omega) h
        · split at h
          · split at h
            · exact ih (by omega) h
            · split at h
              · exact absurd h (by simp)
              · cases h
                simp only [setMeta]
                unfold derive
                exact deriveFuel_mono (by omega) h0
          · split at h
            · exact ih (by omega) h
            · split at h
              · exact absurd h (by simp)
              · cases h
                simp only [setMeta]
                unfold derive
                exact deriveFuel_mono (by omega) h0

lemma derive_neutered_hardened_error {E : Env} {n : BIP32} {i : Nat}
    (hneut : isNeutered n = true) (hge : HIGHEST_BIT ≤ i) (hlt : i < 4294967296) :
    derive E n i = .error "Missing private key for hardened child key" := by
  unfold derive
  obtain ⟨f, hf⟩ : ∃ f, 4294967296 - i = f + 1 := ⟨4294967296 - i - 1, by omega⟩
  rw [hf]
  simp only [deriveFuel]
  rw [if_pos ⟨hge, hneut⟩]

/-- C4: on a neutered node, `derive` with any 32-bit index `i ≥ 2^31` fails
with the missing-private-key error, and `deriveHardened` with any
`j ∈ [0, 2^31 - 1]` fails identically. -/
theorem c4_hardened_from_neutered_fails :
    (∀ (E : Env) (n : BIP32) (i : Nat), isNeutered n = true →
       HIGHEST_BIT ≤ i → i < 4294967296 →
       derive E n i = .error "Missing private key for hardened child key") ∧
    (∀ (E : Env) (n : BIP32) (j : Nat), isNeutered n = true → j ≤ UINT31_MAX →
       deriveHardened E n j = .error "Missing private key for hardened child key") := by
  constructor
  · intro E n i hneut hge hlt
    exact derive_neutered_hardened_error hneut hge hlt
  · intro E n j hneut hj
    unfold deriveHardened
    rw [if_neg (by omega)]
    refine derive_neutered_hardened_error hneut ?_ ?_ <;>
      simp only [HIGHEST_BIT, UINT31_MAX] at * <;> omega

/-- Witness for C4 at a concrete neutered node and concrete indices. -/
theorem c4_witness :
    derive E5 node0pub HIGHEST_BIT = .error "Missing private key for hardened child key" ∧
    deriveHardened E5 node0pub 0 = .error "Missing private key for hardened child key" :=
  ⟨c4_hardened_from_neutered_fails.1 E5 node0pub HIGHEST_BIT (by decide)
      (by decide) (by decide),
   c4_hardened_from_neutered_fails.2 E5 node0pub 0 (by decide) (by decide)⟩

/-- C5: a successful `derive` sets `depth = parent.depth + 1`,
`parentFingerprint` to the big-endian 32-bit read of the first 4 bytes of the
parent's identifier, and `index` to the effective (possibly retried) index
`i' ∈ [i, 2^32)`; deriving directly at `i'` reproduces the same child. -/
theorem c5_child_metadata (E : Env) (n : BIP32) (i : Nat) (c : BIP32)
    (h : derive E n i = .ok c) :
    c.depth = n.depth + 1 ∧
    c.parentFingerprint = readUInt32BE (fingerprint E n) 0 ∧
    i ≤ c.index ∧ c.index < 4294967296 ∧
    derive E n c.index = .ok c := by
  unfold derive at h
  have hi : i < 4294967296 := by
    by_contra hc
    rw [Nat.sub_eq_zero_of_le (by omega)] at h
    simp [deriveFuel] at h
  have hb := deriveFuel_index_bounds h
  have hm := deriveFuel_meta h
  have he := deriveFuel_effective (by omega) h
  exact ⟨hm.1, hm.2.1, hb.1, by omega, he⟩

/-- Witness for C5 at a concrete derivation. -/
theorem c5_witness :
    child0.depth = node0.depth + 1 ∧
    child0.parentFingerprint = readUInt32BE (fingerprint E5 node0) 0 ∧
    0 ≤ child0.index ∧ child0.index < 4294967296 ∧
    derive E5 node0 child0.index = .ok child0 :=
  c5_child_metadata E5 node0 0 child0 (by decide)

/-- C10: the silent `index + 1` retry can change the derivation class.
(a) On a neutered node at index `2^31 - 1`, a first-attempt retry (invalid
`IL` or point at infinity) re-enters `derive` at the hardened index `2^31`
and hits the missing-private-key error.  (b) On a private node at index
`2^32 - 1`, a first-attempt retry re-enters `derive` at `2^32` and fails the
`UInt32` index validation. -/
theorem c10_retry_class_change :
    (∀ (E : Env) (n : BIP32), isNeutered n = true →
       (E.isPrivate ((E.hmacSHA512 n.chainCode
           (publicKey E n ++ ser32 UINT31_MAX)).take 32) = false ∨
        E.pointAddScalar (publicKey E n) ((E.hmacSHA512 n.chainCode
           (publicKey E n ++ ser32 UINT31_MAX)).take 32) = none) →
       derive E n UINT31_MAX = .error "Missing private key for hardened child key") ∧
    (∀ (E : Env) (n : BIP32), isNeutered n = false →
       (E.isPrivate ((E.hmacSHA512 n.chainCode
           (0 :: (n.__d.getD [] ++ ser32 4294967295))).take 32) = false ∨
        E.privateAdd (n.__d.getD []) ((E.hmacSHA512 n.chainCode
           (0 :: (n.__d.getD [] ++ ser32 4294967295))).take 32) = none) →
       derive E n 4294967295 = .error "Expected UInt32") := by
  constructor
  · intro E n hneut hretry
    have htail : ∀ g : Nat, deriveFuel E (g + 1) n (UINT31_MAX + 1) =
        .error "Missing private key for hardened child key" := by
      intro g
      simp only [deriveFuel]
      rw [if_pos ⟨by simp only [HIGHEST_BIT, UINT31_MAX]; omega, hneut⟩]
    unfold derive
    obtain ⟨f, hf, hfe⟩ :
        ∃ f, (4294967296 - UINT31_MAX : Nat) = f + 1 ∧ f = 2147483647 + 1 :=
      ⟨2147483648, by unfold UINT31_MAX; omega, by norm_num⟩
    rw [hf]
    simp only [deriveFuel]
    rw [if_neg (by simp only [HIGHEST_BIT, UINT31_MAX, not_and]; omega)]
    rw [if_neg (show ¬ HIGHEST_BIT ≤ UINT31_MAX by simp only [HIGHEST_BIT, UINT31_MAX]; omega)]
    rcases hretry with hIL | hinf
    · rw [if_pos hIL, hfe]
      exact htail _
    · by_cases hIL : E.isPrivate ((E.hmacSHA512 n.chainCode
          (publicKey E n ++ ser32 UINT31_MAX)).take 32) = false
      · rw [if_pos hIL, hfe]
        exact htail _
      · rw [if_neg hIL, if_neg (by simp [hneut]), hinf, hfe]
        exact htail _
  · intro E n hpriv hretry
    unfold derive
    have h2 : (4294967296 - 4294967295 : Nat) = 0 + 1 := by norm_num
    rw [h2]
    simp only [deriveFuel]
    rw [if_neg (by simp [hpriv])]
    rw [if_pos (show HIGHEST_BIT ≤ 4294967295 by simp only [HIGHEST_BIT]; omega)]
    rcases hretry with hIL | hzero
    · rw [if_pos hIL]
    · by_cases hIL : E.isPrivate ((E.hmacSHA512 n.chainCode
          (0 :: (n.__d.getD [] ++ ser32 4294967295))).take 32) = false
      · rw [if_pos hIL]
      · rw [if_neg hIL, if_pos hpriv, hzero]

/-- Witness for C10: concrete neutered and private nodes whose first HMAC
attempt at the boundary indices triggers a retry. -/
theorem c10_witness :
    derive E5 node0pub UINT31_MAX = .error "Missing private key for hardened child key" ∧
    derive E5 node4 4294967295 = .error "Expected UInt32" :=
  ⟨c10_retry_class_change.1 E5 node0pub (by decide) (Or.inl (by decide)),
   c10_retry_class_change.2 E5 node4 (by decide) (Or.inr (by decide))⟩

/-! ### Neutering commutes with normal derivation (C1) -/

lemma neuterRecord_chainCode (E : Env) (n : BIP32) :
    (neuterRecord E n).chainCode = n.chainCode := rfl

lemma neuterRecord_publicKey (E : Env) (n : BIP32) :
    publicKey E (neuterRecord E n) = publicKey E n := rfl

lemma neuterRecord_network (E : Env) (n : BIP32) :
    (neuterRecord E n).network = n.network := rfl

lemma neutered_eq_ok {E : Env} {n : BIP32}
    (hlen : (publicKey E n).length = 33) (hpoint : E.isPoint (publicKey E n) = true)
    (hcc : n.chainCode.length = 32) (hnet : n.network.valid) :
    neutered E n = .ok (neuterRecord E n) := by
  unfold neutered
  rw [fromPublicKey_eq_ok hlen hcc hpoint hnet]
  rfl

lemma bool_eq_true_of_not_eq_false {b : Bool} (h : ¬ b = false) : b = true := by
  cases b
  · exact absurd rfl h
  · rfl

lemma deriveFuel_neuter_commutes {E : Env} (hL : EccLaws E) :
    ∀ {f : Nat} {n : BIP32} {d : Bytes} {i : Nat} {c : BIP32},
      n.__d = some d → E.isPrivate d = true →
      publicKey E n = E.pointFromScalar d →
      i < HIGHEST_BIT → c.index < HIGHEST_BIT →
      deriveFuel E f n i = .ok c →
      deriveFuel E f (neuterRecord E n) i = .ok (neuterRecord E c) ∧
      ∃ ki, c.__d = some ki ∧ E.isPrivate ki = true ∧ c.__Q = none := by
  intro f
  induction f with
  | zero =>
    intro n d i c _ _ _ _ _ h
    simp [deriveFuel] at h
  | succ f ih =>
    intro n d i c hd hdpriv hQ hi heff h
    have hneut : isNeutered n = false := by simp [isNeutered, hd]
    have hgd : n.__d.getD [] = d := by rw [hd]; rfl
    simp only [deriveFuel] at h ⊢
    rw [if_neg (fun hc => absurd hc.1 (by omega))] at h
    rw [if_neg (fun hc => absurd hc.1 (by omega))]
    rw [if_neg (show ¬ HIGHEST_BIT ≤ i by omega)] at h
    simp only [neuterRecord_chainCode, neuterRecord_publicKey, neuterRecord_network]
    rw [if_neg (show ¬ HIGHEST_BIT ≤ i by omega)]
    by_cases hIL : E.isPrivate
        ((E.hmacSHA512 n.chainCode (publicKey E n ++ ser32 i)).take 32) = false
    · rw [if_pos hIL] at h
      rw [if_pos hIL]
      have hb := deriveFuel_index_bounds h
      exact ih hd hdpriv hQ (by omega) heff h
    · have hILt := bool_eq_true_of_not_eq_false hIL
      rw [if_neg hIL] at h
      rw [if_neg hIL]
      rw [if_pos hneut] at h
      rw [if_neg (show ¬ (isNeutered (neuterRecord E n) = false) by
        simp [isNeutered, neuterRecord])]
      rw [hgd] at h
      have hom := hL.hom d ((E.hmacSHA512 n.chainCode
        (publicKey E n ++ ser32 i)).take 32) hdpriv hILt
      cases hpa : E.privateAdd d
          ((E.hmacSHA512 n.chainCode (publicKey E n ++ ser32 i)).take 32) with
      | none =>
        rw [hpa] at h
        rw [hpa] at hom
        simp only [Option.map_none'] at hom
        rw [← hQ] at hom
        rw [← hom]
        simp only at h
        have hb := deriveFuel_index_bounds h
        exact ih hd hdpriv hQ (by omega) heff h
      | some ki =>
        rw [hpa] at h
        rw [hpa] at hom
        simp only [Option.map_some'] at hom
        rw [← hQ] at hom
        simp only at h
        cases hfk : fromPrivateKey E ki
            ((E.hmacSHA512 n.chainCode (publicKey E n ++ ser32 i)).drop 32)
            n.network with
        | error e =>
          rw [hfk] at h
          exact absurd h (by simp)
        | ok hd' =>
          rw [hfk] at h
          obtain ⟨rfl, hki32, hIR32, hkipriv, hnet⟩ := fromPrivateKey_ok hfk
          simp only at h
          cases h
          refine ⟨?_, ki, rfl, hkipriv, rfl⟩
          split
          · rename_i heqg
            rw [heqg] at hom
            exact absurd hom (by simp)
          · rename_i Ki heqg
            rw [heqg] at hom
            have hKi : Ki = E.pointFromScalar ki := (Option.some.inj hom).symm
            subst hKi
            rw [fromPublicKey_eq_ok (hL.pfs_len ki hkipriv) hIR32
              (hL.pfs_point ki hkipriv) hnet]
            rfl

/-- C1 (amended): for a private node (scalar in range, cached point
consistent, 32-byte chain code) and a normal index `i < 2^31` for which
`derive` succeeds *and whose effective (post-retry) index is still below
`2^31`*, neutering commutes with derivation: `neutered(node)` is a node,
`derive(neutered(node), i)` succeeds, and it is exactly the neutered copy of
`derive(node, i)` — so the two agree on `chainCode`, `depth`, `index`,
`parentFingerprint`, `publicKey`, `network` and neutered state.  (Without the
effective-index condition the claim is false: see the counterexample, where a
retry crosses into the hardened range.) -/
theorem c1_neutering_commutes_amended (E : Env) (hL : EccLaws E) (n : BIP32)
    (d : Bytes) (hd : n.__d = some d) (hdpriv : E.isPrivate d = true)
    (hQ : publicKey E n = E.pointFromScalar d) (hcc : n.chainCode.length = 32)
    (i : Nat) (hi : i < HIGHEST_BIT) (c : BIP32)
    (hder : derive E n i = .ok c) (heff : c.index < HIGHEST_BIT) :
    neutered E n = .ok (neuterRecord E n) ∧
    derive E (neuterRecord E n) i = .ok (neuterRecord E c) ∧
    neutered E c = .ok (neuterRecord E c) := by
  unfold derive at hder
  have hmeta := deriveFuel_meta hder
  obtain ⟨hside, ki, hcd, hkipriv, hcQ⟩ :=
    deriveFuel_neuter_commutes hL hd hdpriv hQ hi heff hder
  have hPk : publicKey E c = E.pointFromScalar ki := by
    simp [publicKey, hcQ, hcd]
  refine ⟨?_, ?_, ?_⟩
  · refine neutered_eq_ok (by rw [hQ]; exact hL.pfs_len d hdpriv)
      (by rw [hQ]; exact hL.pfs_point d hdpriv) hcc ?_
    rw [← hmeta.2.2.1]
    exact hmeta.2.2.2.1
  · unfold derive
    exact hside
  · exact neutered_eq_ok (by rw [hPk]; exact hL.pfs_len ki hkipriv)
      (by rw [hPk]; exact hL.pfs_point ki hkipriv) hmeta.2.2.2.2 hmeta.2.2.2.1

/-- Witness for the amended C1 at a concrete private node and index 0. -/
theorem c1_witness :
    neutered E5 node0 = .ok (neuterRecord E5 node0) ∧
    derive E5 (neuterRecord E5 node0) 0 = .ok (neuterRecord E5 child0) ∧
    neutered E5 child0 = .ok (neuterRecord E5 child0) :=
  c1_neutering_commutes_amended E5 e5_laws node0 (enc32 1) rfl (by decide)
    (by decide) (by decide) 0 (by decide) child0 (by decide) (by decide)

/-- Counterexample to C1 as stated: with a lawful curve backend, at the
normal index `2^31 - 1` the private node derives successfully (the retry
silently crosses to the hardened index `2^31`), while the same derivation on
the neutered copy of the very same node throws the missing-private-key
error — the two sides cannot agree on any field. -/
theorem c1_counterexample :
    EccLaws E5 ∧
    (2147483647 : Nat) < HIGHEST_BIT ∧
    node0.__d = some (enc32 1) ∧ E5.isPrivate (enc32 1) = true ∧
    neutered E5 node0 = .ok node0pub ∧
    derive E5 node0 2147483647 =
      .ok ⟨some (enc32 2), none, enc32 3, BITCOIN, 1, 2147483648, 0⟩ ∧
    derive E5 node0pub 2147483647 =
      .error "Missing private key for hardened child key" :=
  ⟨e5_laws, by decide, rfl, by decide, by decide, by decide, by decide⟩

/-! ### Seed bootstrap (C7, C9) and depth overflow (C8) -/

/-- C7: `fromSeed` rejects exactly the out-of-range seed lengths: below 16
bytes it fails with the 128-bit error, above 64 bytes with the 512-bit
error, and for 16–64 bytes it raises no length error — it either returns a
root node or fails only the scalar range validation. -/
theorem c7_seed_length_bounds :
    (∀ (E : Env) (seed : Bytes) (net : Network), seed.length < 16 →
       fromSeed E seed net = .error "Seed should be at least 128 bits") ∧
    (∀ (E : Env) (seed : Bytes) (net : Network), 64 < seed.length →
       fromSeed E seed net = .error "Seed should be at most 512 bits") ∧
    (∀ (E : Env) (seed : Bytes) (net : Network), 16 ≤ seed.length →
       seed.length ≤ 64 → (E.hmacSHA512 bitcoinSeedKey seed).length = 64 →
       net.valid →
       (∃ m, fromSeed E seed net = .ok m) ∨
       fromSeed E seed net = .error "Private key not in range [1, n)") := by
  refine ⟨?_, ?_, ?_⟩
  · intro E seed net hlt
    unfold fromSeed
    rw [if_pos hlt]
  · intro E seed net hgt
    unfold fromSeed
    rw [if_neg (by omega), if_pos hgt]
  · intro E seed net h16 h64 hhm hnet
    unfold fromSeed
    rw [if_neg (by omega), if_neg (by omega)]
    have hIL : ((E.hmacSHA512 bitcoinSeedKey seed).take 32).length = 32 := by
      simp [List.length_take, hhm]
    have hIR : ((E.hmacSHA512 bitcoinSeedKey seed).drop 32).length = 32 := by
      simp [List.length_drop, hhm]
    by_cases hp : E.isPrivate ((E.hmacSHA512 bitcoinSeedKey seed).take 32) = true
    · exact Or.inl ⟨_, fromPrivateKey_eq_ok hIL hIR hp hnet⟩
    · right
      unfold fromPrivateKey
      rw [if_pos ⟨hIL, hIR⟩, if_neg hp]

/-- Witness for C7 at concrete 15-, 65- and 16-byte seeds. -/
theorem c7_witness :
    fromSeed E5 (List.replicate 15 0) BITCOIN = .error "Seed should be at least 128 bits" ∧
    fromSeed E5 (List.replicate 65 0) BITCOIN = .error "Seed should be at most 512 bits" ∧
    ((∃ m, fromSeed E5 (List.replicate 16 0) BITCOIN = .ok m) ∨
     fromSeed E5 (List.replicate 16 0) BITCOIN = .error "Private key not in range [1, n)") :=
  ⟨c7_seed_length_bounds.1 E5 (List.replicate 15 0) BITCOIN (by decide),
   c7_seed_length_bounds.2.1 E5 (List.replicate 65 0) BITCOIN (by decide),
   c7_seed_length_bounds.2.2 E5 (List.replicate 16 0) BITCOIN (by decide)
     (by decide) (by decide) (by decide)⟩

/-- C9: for a valid-length seed whose HMAC left half is not a valid scalar,
`fromSeed` fails with the scalar-range error instead of returning a root. -/
theorem c9_seed_invalid_scalar (E : Env) (seed : Bytes) (net : Network)
    (h16 : 16 ≤ seed.length) (h64 : seed.length ≤ 64)
    (hhm : (E.hmacSHA512 bitcoinSeedKey seed).length = 64)
    (hinv : E.isPrivate ((E.hmacSHA512 bitcoinSeedKey seed).take 32) = false) :
    fromSeed E seed net = .error "Private key not in range [1, n)" := by
  unfold fromSeed
  rw [if_neg (by omega), if_neg (by omega)]
  have hIL : ((E.hmacSHA512 bitcoinSeedKey seed).take 32).length = 32 := by
    simp [List.length_take, hhm]
  have hIR : ((E.hmacSHA512 bitcoinSeedKey seed).drop 32).length = 32 := by
    simp [List.length_drop, hhm]
  unfold fromPrivateKey
  rw [if_pos ⟨hIL, hIR⟩, if_neg (by simp [hinv])]

/-- Witness for C9: the toy backend maps 16-byte seeds to an all-zero HMAC
block, whose left half is an invalid scalar. -/
theorem c9_witness :
    fromSeed E5 (List.replicate 16 0) BITCOIN = .error "Private key not in range [1, n)" :=
  c9_seed_invalid_scalar E5 (List.replicate 16 0) BITCOIN (by decide) (by decide)
    (by decide) (by decide)

/-- A concrete neutered node already at the documented maximum depth. -/
def node255 : BIP32 := ⟨none, some (enc33 1), ccA, BITCOIN, 255, 0, 0⟩

/-- C8: `derive` has no upper depth check: from a parent at depth 255 a
successful derivation yields a child whose `depth` field is 256, and
`toBase58` on that child fails at the one-byte depth write. -/
theorem c8_depth_overflow (E : Env) (n : BIP32) (i : Nat) (c : BIP32)
    (hdepth : n.depth = 255) (h : derive E n i = .ok c) :
    c.depth = 256 ∧ toBase58 E c = .error "RangeError: depth out of range" := by
  unfold derive at h
  have hmeta := deriveFuel_meta h
  have hc : c.depth = 256 := by rw [hmeta.1, hdepth]
  refine ⟨hc, ?_⟩
  simp only [toBase58]
  rw [if_neg (show ¬ 4294967296 ≤
      (if isNeutered c = true then c.network.bip32public
       else c.network.bip32private) by
    obtain ⟨-, h1, h2⟩ := hmeta.2.2.2.1
    split <;> omega)]
  rw [if_pos (by omega)]

/-- Witness for C8 with a concrete depth-255 parent. -/
theorem c8_witness :
    (⟨none, some (enc33 2), enc32 3, BITCOIN, 256, 0, 0⟩ : BIP32).depth = 256 ∧
    toBase58 E5 ⟨none, some (enc33 2), enc32 3, BITCOIN, 256, 0, 0⟩ =
      .error "RangeError: depth out of range" :=
  c8_depth_overflow E5 node255 0 ⟨none, some (enc33 2), enc32 3, BITCOIN, 256, 0, 0⟩
    (by decide) (by decide)

/-! ### Path resolution (C3) -/

/-- C3 (amended): `derivePath(node, "m")` never returns the node: the
`BIP32Path` validator's pattern `(m\x2f)?(\d+'?\x2f)*\d+'?` requires at
least one numeric segment, so the bare path `"m"` is rejected with the
path-format `TypeError` even on a root node, before the master-anchor logic
that would return the node unchanged can run. -/
theorem c3_bare_m_rejected (E : Env) (n : BIP32)
    (_hroot : n.parentFingerprint = 0) :
    derivePath E n "m" = .error "Expected BIP32Path" := by
  simp only [derivePath]
  rw [if_pos (by decide)]

/-- Witness for the amended C3 at a concrete root node. -/
theorem c3_witness : derivePath E5 node0 "m" = .error "Expected BIP32Path" :=
  c3_bare_m_rejected E5 node0 rfl

/-- Counterexample to C3 as stated: a concrete root node
(`parentFingerprint = 0`) on which `derivePath _ "m"` does not succeed, let
alone return the node unchanged. -/
theorem c3_counterexample :
    node0.parentFingerprint = 0 ∧
    BIP32Path "m" = false ∧
    derivePath E5 node0 "m" ≠ .ok node0 := by
  exact ⟨rfl, by decide, by decide⟩

/-! ### Serialization payload extraction -/

lemma payload_version {v dp pf idx : Nat} {cc key : Bytes}
    (hv : v < 4294967296) :
    readUInt32BE (ser32 v ++ dp :: (ser32 pf ++ ser32 idx ++ cc ++ key)) 0 = v := by
  have h : readUInt32BE (ser32 v ++ dp :: (ser32 pf ++ ser32 idx ++ cc ++ key)) 0 =
      v / 16777216 % 256 * 16777216 + v / 65536 % 256 * 65536 +
        v / 256 % 256 * 256 + v % 256 := rfl
  rw [h]
  omega

lemma payload_depth {v dp pf idx : Nat} {cc key : Bytes} :
    (ser32 v ++ dp :: (ser32 pf ++ ser32 idx ++ cc ++ key)).getD 4 0 = dp := rfl

lemma payload_pf {v dp pf idx : Nat} {cc key : Bytes}
    (hpf : pf < 4294967296) :
    readUInt32BE (ser32 v ++ dp :: (ser32 pf ++ ser32 idx ++ cc ++ key)) 5 = pf := by
  have h : readUInt32BE (ser32 v ++ dp :: (ser32 pf ++ ser32 idx ++ cc ++ key)) 5 =
      pf / 16777216 % 256 * 16777216 + pf / 65536 % 256 * 65536 +
        pf / 256 % 256 * 256 + pf % 256 := rfl
  rw [h]
  omega

lemma payload_index {v dp pf idx : Nat} {cc key : Bytes}
    (hidx : idx < 4294967296) :
    readUInt32BE (ser32 v ++ dp :: (ser32 pf ++ ser32 idx ++ cc ++ key)) 9 = idx := by
  have h : readUInt32BE (ser32 v ++ dp :: (ser32 pf ++ ser32 idx ++ cc ++ key)) 9 =
      idx / 16777216 % 256 * 16777216 + idx / 65536 % 256 * 65536 +
        idx / 256 % 256 * 256 + idx % 256 := rfl
  rw [h]
  omega

lemma payload_chainCode {v dp pf idx : Nat} {cc key : Bytes}
    (hcc : cc.length = 32) :
    ((ser32 v ++ dp :: (ser32 pf ++ ser32 idx ++ cc ++ key)).drop 13).take 32 = cc := by
  show ((cc ++ key).take 32) = cc
  rw [← hcc]
  exact List.take_left cc key

lemma payload_byte45 {v dp pf idx : Nat} {cc key : Bytes}
    (hcc : cc.length = 32) :
    (ser32 v ++ dp :: (ser32 pf ++ ser32 idx ++ cc ++ key)).getD 45 0 = key.getD 0 0 := by
  show (cc ++ key).getD 32 0 = key.getD 0 0
  rw [List.getD_append_right _ _ _ _ (by omega), hcc]

lemma payload_drop45 {v dp pf idx : Nat} {cc key : Bytes}
    (hcc : cc.length = 32) :
    (ser32 v ++ dp :: (ser32 pf ++ ser32 idx ++ cc ++ key)).drop 45 = key := by
  show (cc ++ key).drop 32 = key
  rw [← hcc]
  exact List.drop_left cc key

lemma payload_drop46 {v dp pf idx : Nat} {cc key : Bytes}
    (hcc : cc.length = 32) :
    (ser32 v ++ dp :: (ser32 pf ++ ser32 idx ++ cc ++ key)).drop 46 = key.drop 1 := by
  show (cc ++ key).drop 33 = key.drop 1
  have h : (33 : Nat) = cc.length + 1 := by omega
  rw [h, List.drop_append]

lemma payload_length {v dp pf idx : Nat} {cc key : Bytes}
    (hcc : cc.length = 32) :
    (ser32 v ++ dp :: (ser32 pf ++ ser32 idx ++ cc ++ key)).length = 45 + key.length := by
  simp [ser32, List.length_append, hcc]
  omega

/-! ### Round-trip serialization (C2) -/

/-- A node whose fields are within their documented ranges (§3 of the spec),
whose network words are distinct, and whose key material is valid. -/
structure ValidNode (E : Env) (n : BIP32) : Prop where
  cc_len : n.chainCode.length = 32
  depth_le : n.depth ≤ 255
  index_lt : n.index < 4294967296
  pf_lt : n.parentFingerprint < 4294967296
  net_valid : n.network.valid
  words_ne : n.network.bip32public ≠ n.network.bip32private
  root_inv : n.depth = 0 → n.parentFingerprint = 0 ∧ n.index = 0
  key_valid : match n.__d with
    | some d => d.length = 32 ∧ E.isPrivate d = true
    | none => (publicKey E n).length = 33 ∧ E.isPoint (publicKey E n) = true

lemma toBase58_ok {E : Env} {n : BIP32} (hnet : n.network.valid)
    (hdp : n.depth ≤ 255) (hpf : n.parentFingerprint < 4294967296)
    (hidx : n.index < 4294967296) :
    toBase58 E n = .ok (E.bs58encode (serializePayload E n)) := by
  obtain ⟨-, h1, h2⟩ := hnet
  simp only [toBase58]
  rw [if_neg (by split <;> omega), if_neg (by omega), if_neg (by omega),
    if_neg (by omega)]

lemma fromBase58_decode {E : Env} {s : String} {buf : Bytes} {net : Network}
    (h : E.bs58decode s = .ok buf) :
    fromBase58 E s net = fromBase58Buf E buf net := by
  unfold fromBase58
  rw [h]

/-- C2 (amended): for every valid node whose network has distinct public and
private version words, Base58Check round-tripping reproduces `depth`,
`index`, `parentFingerprint`, `chainCode`, the neutered state and the key
material.  (With equal version words the decoder takes the private branch on
a neutered node's encoding and fails: see the counterexample.) -/
theorem c2_roundtrip_amended (E : Env) (n : BIP32) (hv : ValidNode E n)
    (hcodec : E.bs58decode (E.bs58encode (serializePayload E n)) =
      .ok (serializePayload E n)) :
    ∃ s m, toBase58 E n = .ok s ∧ fromBase58 E s n.network = .ok m ∧
      m.depth = n.depth ∧ m.index = n.index ∧
      m.parentFingerprint = n.parentFingerprint ∧
      m.chainCode = n.chainCode ∧ isNeutered m = isNeutered n ∧
      m.__d = n.__d ∧
      (isNeutered n = true → publicKey E m = publicKey E n) := by
  obtain ⟨hcc, hdp, hidx, hpf, hnet, hdist, hroot, hkey⟩ := hv
  have hpriv32 : n.network.bip32private < 4294967296 := hnet.2.2
  have hpub32 : n.network.bip32public < 4294967296 := hnet.2.1
  cases hnd : n.__d with
  | some d =>
    simp only [hnd] at hkey
    obtain ⟨hd32, hdpriv⟩ := hkey
    have hneut : isNeutered n = false := by simp [isNeutered, hnd]
    have hser : serializePayload E n =
        ser32 n.network.bip32private ++ n.depth ::
          (ser32 n.parentFingerprint ++ ser32 n.index ++ n.chainCode ++ (0 :: d)) := by
      simp [serializePayload, hneut, hnd]
    refine ⟨E.bs58encode (serializePayload E n),
      ⟨some d, none, n.chainCode, n.network, n.depth, n.index, n.parentFingerprint⟩,
      toBase58_ok hnet hdp hpf hidx, ?_, rfl, rfl, rfl, rfl,
      by simp [isNeutered, hnd], by simp [hnd], by simp [hneut]⟩
    rw [fromBase58_decode hcodec, hser]
    have htake : d.take 32 = d := by
      rw [← hd32, List.take_length]
    have hk : (((0 : Nat) :: d).drop 1).take 32 = d := by
      simpa using htake
    simp only [fromBase58Buf]
    rw [payload_length hcc, payload_version hpriv32, payload_depth,
      payload_pf hpf, payload_index hidx, payload_chainCode hcc,
      payload_byte45 hcc, payload_drop46 hcc]
    rw [if_neg (by simp [hd32]), if_neg (by simp),
      if_neg (fun hc => hc.2 (hroot hc.1).1), if_neg (fun hc => hc.2 (hroot hc.1).2),
      if_pos rfl, if_neg (by simp)]
    rw [hk, fromPrivateKey_eq_ok hd32 hcc hdpriv hnet]
  | none =>
    simp only [hnd] at hkey
    obtain ⟨hQ33, hQpoint⟩ := hkey
    have hneut : isNeutered n = true := by simp [isNeutered, hnd]
    have hser : serializePayload E n =
        ser32 n.network.bip32public ++ n.depth ::
          (ser32 n.parentFingerprint ++ ser32 n.index ++ n.chainCode ++
            publicKey E n) := by
      simp [serializePayload, hneut, hnd]
    refine ⟨E.bs58encode (serializePayload E n),
      ⟨none, some (publicKey E n), n.chainCode, n.network, n.depth, n.index,
        n.parentFingerprint⟩,
      toBase58_ok hnet hdp hpf hidx, ?_, rfl, rfl, rfl, rfl,
      by simp [isNeutered, hnd], by simp [hnd], fun _ => rfl⟩
    rw [fromBase58_decode hcodec, hser]
    have htake : (publicKey E n).take 33 = publicKey E n := by
      rw [← hQ33, List.take_length]
    simp only [fromBase58Buf]
    rw [payload_length hcc, payload_version hpub32, payload_depth,
      payload_pf hpf, payload_index hidx, payload_chainCode hcc,
      payload_drop45 hcc]
    rw [if_neg (by simp [hQ33]), if_neg (fun hc => hc.2 rfl),
      if_neg (fun hc => hc.2 (hroot hc.1).1), if_neg (fun hc => hc.2 (hroot hc.1).2),
      if_neg hdist]
    rw [htake, fromPublicKey_eq_ok hQ33 hcc hQpoint hnet]

/-- The 78-byte payload of `node0`. -/
def payload0 : Bytes := serializePayload E5 node0

/-- A capability instance whose Base58Check codec inverts on `payload0`. -/
def Eser : Env := { E5 with bs58decode := fun _ => .ok payload0 }

/-- Witness for the amended C2 at a concrete private node. -/
theorem c2_witness :
    ∃ s m, toBase58 Eser node0 = .ok s ∧ fromBase58 Eser s node0.network = .ok m ∧
      m.depth = node0.depth ∧ m.index = node0.index ∧
      m.parentFingerprint = node0.parentFingerprint ∧
      m.chainCode = node0.chainCode ∧ isNeutered m = isNeutered node0 ∧
      m.__d = node0.__d ∧
      (isNeutered node0 = true → publicKey Eser m = publicKey Eser node0) :=
  c2_roundtrip_amended Eser node0
    ⟨by decide, by decide, by decide, by decide, by decide, by decide,
     by decide, ⟨by decide, by decide⟩⟩ (by decide)

/-- A network whose public and private version words coincide (its fields
are still within the documented `NETWORK_TYPE` ranges). -/
def NETEQ : Network := ⟨0x80, 7, 7⟩

/-- A neutered node on that network, with all fields in range. -/
def nodeEq : BIP32 := ⟨none, some (enc33 1), ccA, NETEQ, 0, 0, 0⟩

/-- A capability instance whose codec inverts on `nodeEq`'s payload. -/
def Eeq : Env := { E5 with bs58decode := fun _ => .ok (serializePayload E5 nodeEq) }

/-- Counterexample to C2 as stated: a node with every field in its
documented range (depth 0, 32-byte chain code, schema-valid network, point
on the curve) whose encoding does not decode back: because the network's two
version words are equal, the decoder takes the private branch and rejects
the point prefix with `Invalid private key`. -/
theorem c2_counterexample :
    nodeEq.chainCode.length = 32 ∧ nodeEq.depth ≤ 255 ∧
    nodeEq.index < 4294967296 ∧ nodeEq.parentFingerprint < 4294967296 ∧
    NETEQ.valid ∧ isNeutered nodeEq = true ∧
    (publicKey Eeq nodeEq).length = 33 ∧ Eeq.isPoint (publicKey Eeq nodeEq) = true ∧
    Eeq.bs58decode (Eeq.bs58encode (serializePayload Eeq nodeEq)) =
      .ok (serializePayload Eeq nodeEq) ∧
    toBase58 Eeq nodeEq = .ok "b58" ∧
    fromBase58 Eeq "b58" nodeEq.network = .error "Invalid private key" := by
  decide

/-! ### Decode failure characterization (C6) -/

/-- C6 (amended): for a schema-valid network and a Base58Check decode
producing `buffer`, `fromBase58` succeeds **iff** the payload is 78 bytes,
the version word matches one of the network's two words, a zero depth forces
zero `parentFingerprint` and zero `index`, and — beyond the claim's list —
the embedded key material itself is valid: for the private word, byte 45 is
`0x00` *and* the 32-byte scalar is in `[1, n)`; for the public word, the
33 bytes are a point on the curve. -/
theorem c6_decode_characterization (E : Env) (s : String) (buffer : Bytes)
    (net : Network) (hnet : net.valid) (hdec : E.bs58decode s = .ok buffer) :
    (∃ m, fromBase58 E s net = .ok m) ↔
      (buffer.length = 78 ∧
       (readUInt32BE buffer 0 = net.bip32private ∨
        readUInt32BE buffer 0 = net.bip32public) ∧
       (buffer.getD 4 0 = 0 → readUInt32BE buffer 5 = 0) ∧
       (buffer.getD 4 0 = 0 → readUInt32BE buffer 9 = 0) ∧
       (if readUInt32BE buffer 0 = net.bip32private then
          buffer.getD 45 0 = 0 ∧ E.isPrivate ((buffer.drop 46).take 32) = true
        else E.isPoint ((buffer.drop 45).take 33) = true)) := by
  have no_ok : ∀ (e : String), ¬ ∃ m : BIP32,
      (Except.error e : Except String BIP32) = .ok m := by
    rintro e ⟨m, hm⟩
    cases hm
  rw [fromBase58_decode hdec]
  simp only [fromBase58Buf]
  by_cases h78 : buffer.length = 78
  case neg =>
    rw [if_pos h78]
    exact iff_of_false (no_ok _) (fun hR => h78 hR.1)
  case pos =>
    rw [if_neg (by simp [h78])]
    have hcc32 : ((buffer.drop 13).take 32).length = 32 := by
      simp [List.length_take, List.length_drop, h78]
    have hk32 : ((buffer.drop 46).take 32).length = 32 := by
      simp [List.length_take, List.length_drop, h78]
    have hX33 : ((buffer.drop 45).take 33).length = 33 := by
      simp [List.length_take, List.length_drop, h78]
    by_cases hver : readUInt32BE buffer 0 ≠ net.bip32private ∧
        readUInt32BE buffer 0 ≠ net.bip32public
    case pos =>
      rw [if_pos hver]
      refine iff_of_false (no_ok _) (fun hR => ?_)
      rcases hR.2.1 with h | h
      · exact hver.1 h
      · exact hver.2 h
    case neg =>
      rw [if_neg hver]
      by_cases hg1 : buffer.getD 4 0 = 0 ∧ readUInt32BE buffer 5 ≠ 0
      case pos =>
        rw [if_pos hg1]
        exact iff_of_false (no_ok _) (fun hR => hg1.2 (hR.2.2.1 hg1.1))
      case neg =>
        rw [if_neg hg1]
        have himp1 : buffer.getD 4 0 = 0 → readUInt32BE buffer 5 = 0 := by
          intro h0
          by_contra hne
          exact hg1 ⟨h0, hne⟩
        by_cases hg2 : buffer.getD 4 0 = 0 ∧ readUInt32BE buffer 9 ≠ 0
        case pos =>
          rw [if_pos hg2]
          exact iff_of_false (no_ok _) (fun hR => hg2.2 (hR.2.2.2.1 hg2.1))
        case neg =>
          rw [if_neg hg2]
          have himp2 : buffer.getD 4 0 = 0 → readUInt32BE buffer 9 = 0 := by
            intro h0
            by_contra hne
            exact hg2 ⟨h0, hne⟩
          by_cases hvp : readUInt32BE buffer 0 = net.bip32private
          case pos =>
            rw [if_pos hvp]
            by_cases hb45 : buffer.getD 45 0 = 0
            case neg =>
              rw [if_pos hb45]
              refine iff_of_false (no_ok _) (fun hR => ?_)
              have hif := hR.2.2.2.2
              rw [if_pos hvp] at hif
              exact hb45 hif.1
            case pos =>
              rw [if_neg (by simpa using hb45)]
              by_cases hkp : E.isPrivate ((buffer.drop 46).take 32) = true
              case pos =>
                rw [fromPrivateKey_eq_ok hk32 hcc32 hkp hnet]
                refine iff_of_true ⟨_, rfl⟩
                  ⟨h78, Or.inl hvp, himp1, himp2, ?_⟩
                rw [if_pos hvp]
                exact ⟨hb45, hkp⟩
              case neg =>
                have herr : fromPrivateKey E ((buffer.drop 46).take 32)
                    ((buffer.drop 13).take 32) net =
                    .error "Private key not in range [1, n)" := by
                  unfold fromPrivateKey
                  rw [if_pos ⟨hk32, hcc32⟩, if_neg hkp]
                rw [herr]
                refine iff_of_false (no_ok _) (fun hR => ?_)
                have hif := hR.2.2.2.2
                rw [if_pos hvp] at hif
                exact hkp hif.2
          case neg =>
            rw [if_neg hvp]
            have hvq : readUInt32BE buffer 0 = net.bip32public := by
              rcases not_and_or.mp hver with hc | hc
              · exact absurd (not_not.mp hc) hvp
              · exact not_not.mp hc
            by_cases hXp : E.isPoint ((buffer.drop 45).take 33) = true
            case pos =>
              rw [fromPublicKey_eq_ok hX33 hcc32 hXp hnet]
              refine iff_of_true ⟨_, rfl⟩
                ⟨h78, Or.inr hvq, himp1, himp2, ?_⟩
              rw [if_neg hvp]
              exact hXp
            case neg =>
              have herr : fromPublicKey E ((buffer.drop 45).take 33)
                  ((buffer.drop 13).take 32) net =
                  .error "Point is not on the curve" := by
                unfold fromPublicKey
                rw [if_pos ⟨hX33, hcc32⟩, if_neg hXp]
              rw [herr]
              refine iff_of_false (no_ok _) (fun hR => ?_)
              have hif := hR.2.2.2.2
              rw [if_neg hvp] at hif
              exact hXp hif

/-- Witness for the amended C6: the characterization evaluated at a concrete
private-node payload under a concrete codec. -/
theorem c6_witness :
    (∃ m, fromBase58 Eser "b58" BITCOIN = .ok m) ↔
      (payload0.length = 78 ∧
       (readUInt32BE payload0 0 = BITCOIN.bip32private ∨
        readUInt32BE payload0 0 = BITCOIN.bip32public) ∧
       (payload0.getD 4 0 = 0 → readUInt32BE payload0 5 = 0) ∧
       (payload0.getD 4 0 = 0 → readUInt32BE payload0 9 = 0) ∧
       (if readUInt32BE payload0 0 = BITCOIN.bip32private then
          payload0.getD 45 0 = 0 ∧
          Eser.isPrivate ((payload0.drop 46).take 32) = true
        else Eser.isPoint ((payload0.drop 45).take 33) = true)) :=
  c6_decode_characterization Eser "b58" payload0 BITCOIN (by decide) (by decide)

/-- A 78-byte private-version payload whose embedded scalar is out of range
(`5 ≡ 0 mod 5` in the toy backend) while every condition listed by the claim
is satisfied. -/
def badBuf : Bytes :=
  ser32 BITCOIN.bip32private ++ 1 ::
    (ser32 0 ++ ser32 0 ++ ccA ++ (0 :: enc32 5))

/-- A capability instance whose codec decodes to `badBuf`. -/
def Ebad : Env := { E5 with bs58decode := fun _ => .ok badBuf }

/-- Counterexample to C6 as stated: a decode that avoids all four listed
failure conditions (78 bytes, private version word, nonzero depth, zero
byte 45) and still does not construct a node — the embedded scalar fails the
range validation. -/
theorem c6_counterexample :
    badBuf.length = 78 ∧
    readUInt32BE badBuf 0 = BITCOIN.bip32private ∧
    badBuf.getD 4 0 = 1 ∧
    badBuf.getD 45 0 = 0 ∧
    Ebad.bs58decode "b58" = .ok badBuf ∧
    BITCOIN.valid ∧
    fromBase58 Ebad "b58" BITCOIN = .error "Private key not in range [1, n)" := by
  decide
